import Mathlib

/-!
Verification of the vanity-wallet generation engine of `fancyWallet`
(`src/src-tauri/src/lib.rs`), shallowly embedded in Lean.

Modelling conventions:
* Strings are modelled as `List Char`.  All strings the engine manipulates
  (hex addresses, checksummed addresses, patterns) are ASCII in practice, so
  Rust byte lengths/indices coincide with character lengths/indices.
* Bytes are modelled as `Nat`; every byte produced by the program is `< 256`
  (`u8` in Rust), and the arithmetic used (`b >> 4 = b / 16`, `b & 0xf = b % 16`)
  is written so the definitions are total on `Nat`.
* The external cryptographic primitives (Keccak-256 from the `sha3` crate,
  secret-key validation and public-key derivation from the `secp256k1` crate)
  are not part of this repository; they are abstracted as the fields of `Env`.
  `Env.secFromSlice` models `SecretKey::from_slice` (returning the key's
  `secret_bytes`), and `Env.serializeUncompressed` models
  `PublicKey::from_secret_key` followed by `serialize_uncompressed`
  (a 65-byte array beginning with the format byte 0x04).
* Rust's `char::to_uppercase().next().unwrap()` and `str::to_lowercase` are
  modelled with `Char.toUpper` / `Char.toLower`, which agree with them on the
  ASCII characters involved.
* `OsRng` draws, the cancellation flag and the wall clock are modelled as
  input streams indexed by the iteration counter (`rand`, `cancel`,
  `elapsed`); the unbounded `loop` is modelled with explicit fuel, `none`
  meaning "still running after that many iterations".
-/

/-- The sixteen lowercase hexadecimal digits (output alphabet of `hex::encode`). -/
def lowerHexDigits : List Char :=
  ['f', 'e', 'd', 'c', 'b', 'a', '9', '8', '7', '6', '5', '4', '3', '2', '1', '0']

/-- One lowercase hex digit, as produced by `hex::encode` for a nibble value. -/
def hexDigitChar (n : Nat) : Char :=
  if n < 10 then Char.ofNat (48 + n) else Char.ofNat (87 + n)

/-- `hex::encode`: each byte becomes its high nibble's digit then its low
nibble's digit, lowercase. -/
def hexEncode : List Nat → List Char
  | [] => []
  | b :: bs => hexDigitChar (b / 16 % 16) :: hexDigitChar (b % 16) :: hexEncode bs

/-- One character of the checksummed address (`to_checksum_address`, loop body,
lib.rs:61-74): look up hash byte `i / 2`, select its high nibble for even `i`
(`(byte >> 4) & 0xf`) and its low nibble for odd `i` (`byte & 0xf`); uppercase
the character iff the nibble is `≥ 8`. -/
def checksumChar (hash : List Nat) (i : Nat) (c : Char) : Char :=
  let byte := hash.getD (i / 2) 0
  let nibble := if i % 2 = 0 then byte / 16 % 16 else byte % 16
  if 8 ≤ nibble then c.toUpper else c

/-- The indexed loop of `to_checksum_address` (`for (i, char) in address.chars().enumerate()`). -/
def checksumGo (hash : List Nat) : Nat → List Char → List Char
  | _, [] => []
  | i, c :: cs => checksumChar hash i c :: checksumGo hash (i + 1) cs

/-- `to_checksum_address` (lib.rs:53-78): Keccak-256 of the ASCII bytes of the
lowercase address string, then per-character case selection. -/
def to_checksum_address (keccak : List Nat → List Nat) (address : List Char) : List Char :=
  checksumGo (keccak (address.map Char.toNat)) 0 address

/-- The wildcard body `"aaaa"` the matcher compares against (lib.rs:251). -/
def aaaaPat : List Char := ['a', 'a', 'a', 'a']

/-- The wildcard body `"aabb"` the matcher compares against (lib.rs:267). -/
def aabbPat : List Char := ['a', 'a', 'b', 'b']

/-- The wildcard body `"abab"` the matcher compares against (lib.rs:289). -/
def ababPat : List Char := ['a', 'b', 'a', 'b']

/-- `chars.iter().all(|&c| c == chars[0])` (lib.rs:256,260): `prefix_chars[0]`
is only evaluated when the iterator yields an element, so an empty list is
vacuously all-same and never a panic. -/
def allSameAsFirst : List Char → Bool
  | [] => true
  | c :: cs => (c :: cs).all (fun x => x == c)

/-- The `aabb` corner shape (lib.rs:275-277): `s[0]==s[1] && s[2]==s[3] && s[0]!=s[2]`,
with `chars().nth i` modelled by `List.get?`. -/
def aabbShape (s : List Char) : Bool :=
  s.get? 0 == s.get? 1 && s.get? 2 == s.get? 3 && s.get? 0 != s.get? 2

/-- The `abab` corner shape (lib.rs:297-299): `s[0]==s[2] && s[1]==s[3] && s[0]!=s[1]`. -/
def ababShape (s : List Char) : Bool :=
  s.get? 0 == s.get? 2 && s.get? 1 == s.get? 3 && s.get? 0 != s.get? 1

/-- Pattern compilation (lib.rs:197-204): a pattern that starts and ends with
`*` and has length `> 2` is wildcard mode with the in-between body lowercased;
anything else is exact mode with the whole pattern lowercased.  Returns
`(is_wildcard, search_pattern)` exactly as the source's tuple. -/
def compilePattern (pattern : List Char) : Bool × List Char :=
  if pattern.head? = some '*' ∧ pattern.getLast? = some '*' ∧ 2 < pattern.length then
    (true, ((pattern.drop 1).dropLast).map Char.toLower)
  else
    (false, pattern.map Char.toLower)

/-- Per-candidate match evaluation (lib.rs:248-321), operating on the
checksummed address string. -/
def addressMatches (keccak : List Nat → List Nat) (isWildcard : Bool)
    (searchPattern addressChecksum : List Char) : Bool :=
  if isWildcard then
    if searchPattern = aaaaPat then
      if 8 ≤ addressChecksum.length then
        allSameAsFirst (addressChecksum.take 4) &&
        allSameAsFirst (addressChecksum.reverse.take 4)
      else false
    else if searchPattern = aabbPat then
      if 8 ≤ addressChecksum.length then
        aabbShape (addressChecksum.take 4) &&
        aabbShape (addressChecksum.drop (addressChecksum.length - 4))
      else false
    else if searchPattern = ababPat then
      if 8 ≤ addressChecksum.length then
        ababShape (addressChecksum.take 4) &&
        ababShape (addressChecksum.drop (addressChecksum.length - 4))
      else false
    else
      let patternChecksum := to_checksum_address keccak searchPattern
      patternChecksum.isPrefixOf addressChecksum &&
      patternChecksum.isSuffixOf addressChecksum
  else
    let patternChecksum := to_checksum_address keccak searchPattern
    patternChecksum.isPrefixOf addressChecksum &&
    patternChecksum.isSuffixOf addressChecksum

-- sanity checks of the embedding on concrete inputs
example : compilePattern "*aabb*".data = (true, aabbPat) := by decide
example : compilePattern "*AbC*".data = (true, ['a', 'b', 'c']) := by decide
example : compilePattern "dead".data = (false, ['d', 'e', 'a', 'd']) := by decide
example : compilePattern "*".data = (false, ['*']) := by decide
example : aabbShape "AABB".data = true := by decide
example : aabbShape "ABAB".data = false := by decide
example : allSameAsFirst "AAAA".data = true := by decide

/-! ## Panic-tracking model of checksum and matching

Rust indexing (`hash[i / 2]`, `&s[..4]`, `&s[len-4..]`) panics out of bounds.
The `...Checked` definitions mirror the same computations but return `none`
exactly where the source would panic, so totality ("no error path") becomes a
provable statement rather than an artifact of Lean functions being total. -/

/-- `hash[i / 2]` with the out-of-bounds panic made explicit. -/
def checksumCharChecked (hash : List Nat) (i : Nat) (c : Char) : Option Char :=
  match hash.get? (i / 2) with
  | none => none
  | some byte =>
    let nibble := if i % 2 = 0 then byte / 16 % 16 else byte % 16
    some (if 8 ≤ nibble then c.toUpper else c)

/-- `checksumGo` with the panic of `hash[i / 2]` made explicit. -/
def checksumGoChecked (hash : List Nat) : Nat → List Char → Option (List Char)
  | _, [] => some []
  | i, c :: cs =>
    match checksumCharChecked hash i c, checksumGoChecked hash (i + 1) cs with
    | some d, some rest => some (d :: rest)
    | _, _ => none

/-- `to_checksum_address` with panics made explicit. -/
def to_checksum_address_checked (keccak : List Nat → List Nat)
    (address : List Char) : Option (List Char) :=
  checksumGoChecked (keccak (address.map Char.toNat)) 0 address

/-- `&s[..n]`: panics (here `none`) when `n` exceeds the length. -/
def sliceTake (l : List Char) (n : Nat) : Option (List Char) :=
  if n ≤ l.length then some (l.take n) else none

/-- `&s[n..]`: panics (here `none`) when `n` exceeds the length. -/
def sliceDrop (l : List Char) (n : Nat) : Option (List Char) :=
  if n ≤ l.length then some (l.drop n) else none

/-- Match evaluation with every potentially panicking operation of the source
(`to_checksum_address`'s hash indexing, the `[..4]` / `[len-4..]` slices) made
explicit. -/
def addressMatchesChecked (keccak : List Nat → List Nat) (isWildcard : Bool)
    (searchPattern addressChecksum : List Char) : Option Bool :=
  if isWildcard then
    if searchPattern = aaaaPat then
      some (if 8 ≤ addressChecksum.length then
              allSameAsFirst (addressChecksum.take 4) &&
              allSameAsFirst (addressChecksum.reverse.take 4)
            else false)
    else if searchPattern = aabbPat then
      if 8 ≤ addressChecksum.length then
        match sliceTake addressChecksum 4,
              sliceDrop addressChecksum (addressChecksum.length - 4) with
        | some pre, some suf => some (aabbShape pre && aabbShape suf)
        | _, _ => none
      else some false
    else if searchPattern = ababPat then
      if 8 ≤ addressChecksum.length then
        match sliceTake addressChecksum 4,
              sliceDrop addressChecksum (addressChecksum.length - 4) with
        | some pre, some suf => some (ababShape pre && ababShape suf)
        | _, _ => none
      else some false
    else
      match to_checksum_address_checked keccak searchPattern with
      | some pc => some (pc.isPrefixOf addressChecksum && pc.isSuffixOf addressChecksum)
      | none => none
  else
    match to_checksum_address_checked keccak searchPattern with
    | some pc => some (pc.isPrefixOf addressChecksum && pc.isSuffixOf addressChecksum)
    | none => none

/-! ## The search loop -/

/-- External cryptographic primitives (the `sha3` and `secp256k1` crates),
abstracted: they are dependencies of the repository, not code under `src/`. -/
structure Env where
  /-- `Keccak256::digest` over a byte string (32-byte output for the real hash). -/
  keccak : List Nat → List Nat
  /-- `SecretKey::from_slice`: `none` on an invalid scalar, otherwise the key,
  identified with its `secret_bytes()`. -/
  secFromSlice : List Nat → Option (List Nat)
  /-- `PublicKey::from_secret_key(..).serialize_uncompressed()`: 65 bytes,
  leading format byte `0x04`. -/
  serializeUncompressed : List Nat → List Nat

/-- `Wallet` (lib.rs:18-28). -/
structure Wallet where
  address : List Char
  privateKey : List Char
  attempts : Nat
  duration : Nat

/-- `ProgressStats` (lib.rs:106-114). -/
structure ProgressStats where
  attempts : Nat
  «matches» : Nat
  duration : Nat

/-- The mutable state of one search: counters, retained last match, and the
observable effect streams (persisted wallets, emitted progress snapshots). -/
structure LoopState where
  attempt : Nat
  matchesCount : Nat
  lastMatch : Option Wallet
  saved : List Wallet
  progress : List ProgressStats

/-- State at the top of `generate_fancy_wallet`'s loop (lib.rs:208-210). -/
def initialState : LoopState :=
  { attempt := 0, matchesCount := 0, lastMatch := none, saved := [], progress := [] }

/-- The "cancelled, no match found" error string (lib.rs:219). -/
def cancelMsg : List Char := "生成已取消，未找到匹配的钱包".data

/-- The lowercase address derived from a secret key (lib.rs:237-242): serialize
the public key uncompressed, drop the leading format byte, Keccak-256 the
remaining bytes, keep `hash[12..]`, hex-encode lowercase. -/
def codeAddressLower (env : Env) (secretKey : List Nat) : List Char :=
  hexEncode ((env.keccak ((env.serializeUncompressed secretKey).drop 1)).drop 12)

/-- Modelled from the spec (§4.2 Address Deriver), for refinement against
`codeAddressLower`: "serialize the public key in uncompressed form and drop
the leading format byte, leaving 64 bytes (X‖Y); compute Keccak-256 of those
64 bytes; take the last 20 bytes of the hash as the address; hex-encode
(lowercase)". -/
def specAddressLower (env : Env) (secretKey : List Nat) : List Char :=
  let pubXY := (env.serializeUncompressed secretKey).drop 1
  let h := env.keccak pubXY
  hexEncode (h.drop (h.length - 20))

/-- The `Wallet` record built on a match (lib.rs:328-333): checksummed address
with the `0x` prefix, hex-encoded secret bytes, current attempt counter and
elapsed milliseconds. -/
def matchWallet (env : Env) (secretKey : List Nat) (attempt dur : Nat) : Wallet :=
  { address := '0' :: 'x' :: to_checksum_address env.keccak (codeAddressLower env secretKey)
    privateKey := hexEncode secretKey
    attempts := attempt
    duration := dur }

/-- One pass through the body of the `loop` (lib.rs:223-350), after the
cancellation check: increment the attempt counter; try to build a secret key
from the 32 random bytes (`continue` on failure); derive and checksum the
address; evaluate the match; on a match, bump the match counter, retain the
wallet and invoke the persistence hook; emit a progress snapshot every 1000
attempts or on a match.  `elapsed` models `start_time.elapsed().as_millis()`
as a function of the attempt counter. -/
def loopStep (env : Env) (isWildcard : Bool) (searchPattern : List Char)
    (elapsed : Nat → Nat) (randomBytes : List Nat) (s : LoopState) : LoopState :=
  match env.secFromSlice randomBytes with
  | none => { s with attempt := s.attempt + 1 }
  | some secretKey =>
    let addressChecksum := to_checksum_address env.keccak (codeAddressLower env secretKey)
    let isMatch := addressMatches env.keccak isWildcard searchPattern addressChecksum
    let s1 :=
      if isMatch then
        let w := matchWallet env secretKey (s.attempt + 1) (elapsed (s.attempt + 1))
        { attempt := s.attempt + 1, matchesCount := s.matchesCount + 1,
          lastMatch := some w, saved := s.saved ++ [w], progress := s.progress }
      else { s with attempt := s.attempt + 1 }
    if (s.attempt + 1) % 1000 = 0 ∨ isMatch = true then
      { s1 with progress := s1.progress ++
          [{ attempts := s.attempt + 1, «matches» := s1.matchesCount,
             duration := elapsed (s.attempt + 1) }] }
    else s1

/-- Whether the iteration consuming the given random bytes matches (the value
of `matches` at lib.rs:248 for that draw; `false` when the draw is an invalid
scalar, since `continue` skips the match test). -/
def iterMatches (env : Env) (isWildcard : Bool) (searchPattern : List Char)
    (randomBytes : List Nat) : Bool :=
  match env.secFromSlice randomBytes with
  | none => false
  | some secretKey =>
    addressMatches env.keccak isWildcard searchPattern
      (to_checksum_address env.keccak (codeAddressLower env secretKey))

/-- `n` consecutive loop bodies (no cancellation in between); the random draw
for an iteration is indexed by the attempt counter at its start. -/
def runSteps (env : Env) (isWildcard : Bool) (searchPattern : List Char)
    (elapsed : Nat → Nat) (rand : Nat → List Nat) : Nat → LoopState → LoopState
  | 0, s => s
  | n + 1, s => runSteps env isWildcard searchPattern elapsed rand n
      (loopStep env isWildcard searchPattern elapsed (rand s.attempt) s)

/-- The `loop` of lib.rs:213-353 with explicit fuel: each iteration first reads
the cancellation flag (`cancel` indexed by the attempt counter, which counts
the iterations already executed); if set, the search returns — `Ok` with the
retained last match if there is one, the cancellation error otherwise.  `none`
means the fuel ran out with the loop still running. -/
def runLoop (env : Env) (isWildcard : Bool) (searchPattern : List Char)
    (elapsed : Nat → Nat) (cancel : Nat → Bool) (rand : Nat → List Nat) :
    Nat → LoopState → Option (Except (List Char) Wallet × LoopState)
  | 0, _ => none
  | fuel + 1, s =>
    if cancel s.attempt then
      match s.lastMatch with
      | some w => some (Except.ok w, s)
      | none => some (Except.error cancelMsg, s)
    else
      runLoop env isWildcard searchPattern elapsed cancel rand fuel
        (loopStep env isWildcard searchPattern elapsed (rand s.attempt) s)

/-- `generate_fancy_wallet` (lib.rs:183-354): compile the pattern, then run
the loop from a fresh state.  `_maxAttempts` mirrors the source's
`_max_attempts` parameter, kept for compatibility and unused. -/
def generate_fancy_wallet (env : Env) (pattern : List Char) (_maxAttempts : Nat)
    (elapsed : Nat → Nat) (cancel : Nat → Bool) (rand : Nat → List Nat)
    (fuel : Nat) : Option (Except (List Char) Wallet × LoopState) :=
  let compiled := compilePattern pattern
  runLoop env compiled.1 compiled.2 elapsed cancel rand fuel initialState

/-- The invariant tying the match counter, the retained last match and the
persisted wallets together along a search. -/
def searchInv (s : LoopState) : Prop :=
  (s.matchesCount = 0 ↔ s.lastMatch = none) ∧ s.lastMatch = s.saved.getLast?

/-! ## Concrete environments for witnesses -/

/-- A stand-in hash with the real Keccak-256 output length. -/
def keccak0 : List Nat → List Nat := fun _ => List.replicate 32 0

/-- Environment whose scalar check always fails. -/
def env0 : Env :=
  { keccak := keccak0
    secFromSlice := fun _ => none
    serializeUncompressed := fun _ => List.replicate 65 0 }

/-- Environment whose scalar check always succeeds. -/
def env1 : Env :=
  { keccak := keccak0
    secFromSlice := fun bs => some bs
    serializeUncompressed := fun _ => List.replicate 65 0 }

/-! ## List and character helper lemmas -/

theorem get?_some_of_lt {α : Type} (l : List α) (n : Nat) (d : α) (h : n < l.length) :
    l.get? n = some (l.getD n d) := by
  induction l generalizing n with
  | nil => simp at h
  | cons a t ih =>
    cases n with
    | zero => rfl
    | succ m => simpa using ih m (by simpa using h)

theorem get?_take_of_lt {α : Type} (l : List α) (n j : Nat) (h : j < n) :
    (l.take n).get? j = l.get? j := by
  induction l generalizing n j with
  | nil => simp
  | cons a t ih =>
    cases n with
    | zero => omega
    | succ m =>
      cases j with
      | zero => rfl
      | succ k => simpa using ih m k (by omega)

theorem get?_drop' {α : Type} (l : List α) (n j : Nat) :
    (l.drop n).get? j = l.get? (n + j) := by
  induction l generalizing n with
  | nil => simp
  | cons a t ih =>
    cases n with
    | zero => simp
    | succ m => simp [Nat.succ_add, ih m]

theorem toLower_of_hex (c : Char) (h : c ∈ lowerHexDigits) : c.toLower = c := by
  fin_cases h <;> rfl

theorem toLower_toUpper_of_hex (c : Char) (h : c ∈ lowerHexDigits) :
    c.toUpper.toLower = c := by
  fin_cases h <;> rfl

theorem hexDigitChar_mem (n : Nat) (h : n < 16) : hexDigitChar n ∈ lowerHexDigits := by
  interval_cases n <;> decide

theorem mem_hexEncode {c : Char} (bs : List Nat) (h : c ∈ hexEncode bs) :
    c ∈ lowerHexDigits := by
  induction bs with
  | nil => simp [hexEncode] at h
  | cons b t ih =>
    simp only [hexEncode, List.mem_cons] at h
    rcases h with h | h | h
    · exact h ▸ hexDigitChar_mem _ (Nat.mod_lt _ (by omega))
    · exact h ▸ hexDigitChar_mem _ (Nat.mod_lt _ (by omega))
    · exact ih h

/-! ## Checksum lemmas -/

theorem checksumGo_get? (hash : List Nat) (l : List Char) (k j : Nat) :
    (checksumGo hash k l).get? j = (l.get? j).map (fun c => checksumChar hash (k + j) c) := by
  induction l generalizing k j with
  | nil => simp [checksumGo]
  | cons c cs ih =>
    cases j with
    | zero => simp [checksumGo]
    | succ m =>
      have e : k + 1 + m = k + (m + 1) := by omega
      simpa [checksumGo, e] using ih (k + 1) m

theorem toLower_checksumChar (hash : List Nat) (i : Nat) (c : Char)
    (h : c ∈ lowerHexDigits) : (checksumChar hash i c).toLower = c := by
  unfold checksumChar
  by_cases h8 : 8 ≤ (if i % 2 = 0 then hash.getD (i / 2) 0 / 16 % 16 else hash.getD (i / 2) 0 % 16)
  · simp only [h8, if_pos]
    exact toLower_toUpper_of_hex c h
  · simp only [h8, if_neg, if_false]
    exact toLower_of_hex c h

theorem checksumGo_toLower (hash : List Nat) (l : List Char) (k : Nat)
    (h : ∀ c ∈ l, c ∈ lowerHexDigits) :
    (checksumGo hash k l).map Char.toLower = l := by
  induction l generalizing k with
  | nil => rfl
  | cons c cs ih =>
    simp only [checksumGo, List.map_cons]
    rw [toLower_checksumChar hash k c (h c (List.mem_cons_self c cs)),
        ih (k + 1) (fun d hd => h d (List.mem_cons_of_mem c hd))]

theorem map_toLower_of_hex (l : List Char) (h : ∀ c ∈ l, c ∈ lowerHexDigits) :
    l.map Char.toLower = l := by
  induction l with
  | nil => rfl
  | cons c cs ih =>
    simp only [List.map_cons]
    rw [toLower_of_hex c (h c (List.mem_cons_self c cs)),
        ih (fun d hd => h d (List.mem_cons_of_mem c hd))]

theorem to_checksum_address_toLower (keccak : List Nat → List Nat) (l : List Char)
    (h : ∀ c ∈ l, c ∈ lowerHexDigits) :
    (to_checksum_address keccak l).map Char.toLower = l :=
  checksumGo_toLower _ l 0 h

theorem checksumGoChecked_eq (hash : List Nat) (h32 : hash.length = 32) :
    ∀ (l : List Char) (i : Nat), i + l.length ≤ 64 →
      checksumGoChecked hash i l = some (checksumGo hash i l)
  | [], _, _ => rfl
  | c :: cs, i, h => by
    have hb : i / 2 < hash.length := by rw [h32]; simp only [List.length_cons] at h; omega
    have hr : checksumGoChecked hash (i + 1) cs = some (checksumGo hash (i + 1) cs) :=
      checksumGoChecked_eq hash h32 cs (i + 1)
        (by simp only [List.length_cons] at h; omega)
    simp only [checksumGoChecked, checksumGo, checksumCharChecked,
      get?_some_of_lt hash (i / 2) 0 hb, hr]
    rfl

/-! ## Loop-step lemmas -/

theorem loopStep_invalid (env : Env) (w : Bool) (sp : List Char) (elapsed : Nat → Nat)
    (rb : List Nat) (s : LoopState) (h : env.secFromSlice rb = none) :
    loopStep env w sp elapsed rb s = { s with attempt := s.attempt + 1 } := by
  simp [loopStep, h]

theorem loopStep_valid_match (env : Env) (w : Bool) (sp : List Char) (elapsed : Nat → Nat)
    (rb : List Nat) (s : LoopState) (sk : List Nat) (h : env.secFromSlice rb = some sk)
    (hm : addressMatches env.keccak w sp
      (to_checksum_address env.keccak (codeAddressLower env sk)) = true) :
    (loopStep env w sp elapsed rb s).attempt = s.attempt + 1 ∧
    (loopStep env w sp elapsed rb s).matchesCount = s.matchesCount + 1 ∧
    (loopStep env w sp elapsed rb s).lastMatch =
      some (matchWallet env sk (s.attempt + 1) (elapsed (s.attempt + 1))) ∧
    (loopStep env w sp elapsed rb s).saved =
      s.saved ++ [matchWallet env sk (s.attempt + 1) (elapsed (s.attempt + 1))] := by
  simp only [loopStep, h, hm]
  split <;> simp

theorem loopStep_valid_nomatch (env : Env) (w : Bool) (sp : List Char) (elapsed : Nat → Nat)
    (rb : List Nat) (s : LoopState) (sk : List Nat) (h : env.secFromSlice rb = some sk)
    (hm : addressMatches env.keccak w sp
      (to_checksum_address env.keccak (codeAddressLower env sk)) = false) :
    (loopStep env w sp elapsed rb s).attempt = s.attempt + 1 ∧
    (loopStep env w sp elapsed rb s).matchesCount = s.matchesCount ∧
    (loopStep env w sp elapsed rb s).lastMatch = s.lastMatch ∧
    (loopStep env w sp elapsed rb s).saved = s.saved := by
  simp only [loopStep, h, hm]
  split <;> simp

theorem loopStep_attempt (env : Env) (w : Bool) (sp : List Char) (elapsed : Nat → Nat)
    (rb : List Nat) (s : LoopState) :
    (loopStep env w sp elapsed rb s).attempt = s.attempt + 1 := by
  cases h : env.secFromSlice rb with
  | none => rw [loopStep_invalid env w sp elapsed rb s h]
  | some sk =>
    cases hm : addressMatches env.keccak w sp
        (to_checksum_address env.keccak (codeAddressLower env sk)) with
    | false => exact (loopStep_valid_nomatch env w sp elapsed rb s sk h hm).1
    | true => exact (loopStep_valid_match env w sp elapsed rb s sk h hm).1

theorem loopStep_matches_true (env : Env) (w : Bool) (sp : List Char) (elapsed : Nat → Nat)
    (rb : List Nat) (s : LoopState) (hm : iterMatches env w sp rb = true) :
    (loopStep env w sp elapsed rb s).matchesCount = s.matchesCount + 1 := by
  cases h : env.secFromSlice rb with
  | none => simp [iterMatches, h] at hm
  | some sk =>
    rw [iterMatches, h] at hm
    exact (loopStep_valid_match env w sp elapsed rb s sk h hm).2.1

theorem loopStep_matches_false (env : Env) (w : Bool) (sp : List Char) (elapsed : Nat → Nat)
    (rb : List Nat) (s : LoopState) (hm : iterMatches env w sp rb = false) :
    (loopStep env w sp elapsed rb s).matchesCount = s.matchesCount := by
  cases h : env.secFromSlice rb with
  | none => rw [loopStep_invalid env w sp elapsed rb s h]
  | some sk =>
    rw [iterMatches, h] at hm
    exact (loopStep_valid_nomatch env w sp elapsed rb s sk h hm).2.1

theorem loopStep_inv (env : Env) (w : Bool) (sp : List Char) (elapsed : Nat → Nat)
    (rb : List Nat) (s : LoopState) (hs : searchInv s) :
    searchInv (loopStep env w sp elapsed rb s) := by
  cases h : env.secFromSlice rb with
  | none => rw [loopStep_invalid env w sp elapsed rb s h]; exact hs
  | some sk =>
    cases hm : addressMatches env.keccak w sp
        (to_checksum_address env.keccak (codeAddressLower env sk)) with
    | false =>
      obtain ⟨-, h2, h3, h4⟩ := loopStep_valid_nomatch env w sp elapsed rb s sk h hm
      exact ⟨by rw [h2, h3]; exact hs.1, by rw [h3, h4]; exact hs.2⟩
    | true =>
      obtain ⟨-, h2, h3, h4⟩ := loopStep_valid_match env w sp elapsed rb s sk h hm
      constructor
      · rw [h2, h3]; simp
      · rw [h3, h4]; simp [List.getLast?_concat]

/-! ## Iterated-step lemmas -/

theorem runSteps_attempt (env : Env) (w : Bool) (sp : List Char) (elapsed : Nat → Nat)
    (rand : Nat → List Nat) : ∀ (n : Nat) (s : LoopState),
    (runSteps env w sp elapsed rand n s).attempt = s.attempt + n := by
  intro n
  induction n with
  | zero => intro s; rfl
  | succ m ih =>
    intro s
    show (runSteps env w sp elapsed rand m _).attempt = _
    rw [ih, loopStep_attempt]
    omega

theorem runSteps_matches_zero (env : Env) (w : Bool) (sp : List Char) (elapsed : Nat → Nat)
    (rand : Nat → List Nat) : ∀ (n : Nat) (s : LoopState),
    (∀ k, s.attempt ≤ k → k < s.attempt + n → iterMatches env w sp (rand k) = false) →
    (runSteps env w sp elapsed rand n s).matchesCount = s.matchesCount := by
  intro n
  induction n with
  | zero => intro s _; rfl
  | succ m ih =>
    intro s hk
    show (runSteps env w sp elapsed rand m _).matchesCount = _
    rw [ih _ (fun k hk1 hk2 => by
          rw [loopStep_attempt] at hk1 hk2
          exact hk k (by omega) (by omega)),
        loopStep_matches_false env w sp elapsed (rand s.attempt) s
          (hk s.attempt (by omega) (by omega))]

/-! ## Loop-exit lemmas -/

theorem runLoop_no_cancel (env : Env) (w : Bool) (sp : List Char) (elapsed : Nat → Nat)
    (cancel : Nat → Bool) (rand : Nat → List Nat) (hc : ∀ k, cancel k = false) :
    ∀ (fuel : Nat) (s : LoopState),
    runLoop env w sp elapsed cancel rand fuel s = none := by
  intro fuel
  induction fuel with
  | zero => intro s; rfl
  | succ m ih => intro s; simp [runLoop, hc, ih]

theorem runLoop_exit (env : Env) (w : Bool) (sp : List Char) (elapsed : Nat → Nat)
    (cancel : Nat → Bool) (rand : Nat → List Nat) :
    ∀ (fuel : Nat) (s : LoopState) (r : Except (List Char) Wallet) (s' : LoopState),
    searchInv s → runLoop env w sp elapsed cancel rand fuel s = some (r, s') →
    cancel s'.attempt = true ∧ searchInv s' ∧
    (∀ wlt, s'.lastMatch = some wlt → r = Except.ok wlt) ∧
    (s'.lastMatch = none → r = Except.error cancelMsg) := by
  intro fuel
  induction fuel with
  | zero => intro s r s' _ h; exact absurd h (by simp [runLoop])
  | succ m ih =>
    intro s r s' hs h
    rw [runLoop] at h
    by_cases hc : cancel s.attempt = true
    · rw [if_pos hc] at h
      cases hl : s.lastMatch with
      | some wlt =>
        rw [hl] at h
        obtain ⟨rfl, rfl⟩ := Prod.mk.inj (Option.some.inj h)
        refine ⟨hc, hs, ?_, ?_⟩
        · intro w2 hw2
          rw [hl] at hw2
          cases Option.some.inj hw2
          rfl
        · intro hn
          simp [hl] at hn
      | none =>
        rw [hl] at h
        obtain ⟨rfl, rfl⟩ := Prod.mk.inj (Option.some.inj h)
        refine ⟨hc, hs, ?_, fun _ => rfl⟩
        intro w2 hw2
        rw [hl] at hw2
        exact absurd hw2 (by simp)
    · rw [if_neg hc] at h
      exact ih _ r s' (loopStep_inv env w sp elapsed (rand s.attempt) s hs) h

theorem addressMatches_empty (K : List Nat → List Nat) (addr : List Char) :
    addressMatches K false [] addr = true := by
  simp [addressMatches, to_checksum_address, checksumGo, List.isSuffixOf]

/-! ## Claims -/

/-- C1: for every search invocation, cancellation is the only exit: on the
iteration where the cancellation flag is observed set, the search returns `Ok`
with the most recent `MatchedWallet` when at least one match has occurred, and
the "cancelled, no match found" error otherwise; with the flag never set the
loop never terminates on its own, whatever fuel it is given (no attempt
ceiling, and a match does not stop the search). -/
theorem cancellation_only_exit (env : Env) (w : Bool) (sp : List Char)
    (elapsed : Nat → Nat) (cancel : Nat → Bool) (rand : Nat → List Nat) :
    ((∀ k, cancel k = false) →
      ∀ fuel, runLoop env w sp elapsed cancel rand fuel initialState = none) ∧
    (∀ fuel r s, runLoop env w sp elapsed cancel rand fuel initialState = some (r, s) →
      cancel s.attempt = true ∧
      (1 ≤ s.matchesCount → ∃ wlt, s.lastMatch = some wlt ∧
        s.saved.getLast? = some wlt ∧ r = Except.ok wlt) ∧
      (s.matchesCount = 0 → r = Except.error cancelMsg)) := by
  have hinv : searchInv initialState := ⟨by simp [initialState], by simp [initialState]⟩
  constructor
  · intro hc fuel
    exact runLoop_no_cancel env w sp elapsed cancel rand hc fuel initialState
  · intro fuel r s h
    obtain ⟨hc, hs, hok, herr⟩ :=
      runLoop_exit env w sp elapsed cancel rand fuel initialState r s hinv h
    refine ⟨hc, ?_, ?_⟩
    · intro h1
      cases hl : s.lastMatch with
      | none =>
        have := hs.1.mpr hl
        omega
      | some wlt => exact ⟨wlt, rfl, by rw [← hs.2, hl], hok wlt hl⟩
    · intro h0
      exact herr (hs.1.mp h0)

/-- C1 witness: with the flag never set the loop is still running after 5
iterations; with the flag set from the start and no match yet, the search
exits with the cancellation error. -/
theorem cancellation_only_exit_witness :
    runLoop env0 false [] (fun _ => 0) (fun _ => false) (fun _ => []) 5 initialState = none ∧
    ((fun _ : Nat => true) initialState.attempt = true ∧
      (1 ≤ initialState.matchesCount → ∃ wlt, initialState.lastMatch = some wlt ∧
        initialState.saved.getLast? = some wlt ∧
        (Except.error cancelMsg : Except (List Char) Wallet) = Except.ok wlt) ∧
      (initialState.matchesCount = 0 →
        (Except.error cancelMsg : Except (List Char) Wallet) = Except.error cancelMsg)) :=
  ⟨(cancellation_only_exit env0 false [] (fun _ => 0) (fun _ => false)
      (fun _ => [])).1 (fun _ => rfl) 5,
   (cancellation_only_exit env0 false [] (fun _ => 0) (fun _ => true)
      (fun _ => [])).2 1 (Except.error cancelMsg) initialState rfl⟩

/-- C7: the counters are exact: after `N` iterations from a fresh state the
attempt counter is `N`, and it is `0` matches when no iteration matched; a
matching iteration increments the match counter by exactly 1; an iteration
whose random bytes are an invalid scalar still counts as one attempt and
changes nothing else. -/
theorem counters_exact (env : Env) (w : Bool) (sp : List Char)
    (elapsed : Nat → Nat) (rand : Nat → List Nat) :
    (∀ n, (runSteps env w sp elapsed rand n initialState).attempt = n) ∧
    (∀ n, (∀ k, k < n → iterMatches env w sp (rand k) = false) →
      (runSteps env w sp elapsed rand n initialState).matchesCount = 0) ∧
    (∀ (rb : List Nat) (s : LoopState), iterMatches env w sp rb = true →
      (loopStep env w sp elapsed rb s).matchesCount = s.matchesCount + 1) ∧
    (∀ (rb : List Nat) (s : LoopState), env.secFromSlice rb = none →
      loopStep env w sp elapsed rb s = { s with attempt := s.attempt + 1 }) := by
  refine ⟨?_, ?_, ?_, ?_⟩
  · intro n
    rw [runSteps_attempt]
    simp [initialState]
  · intro n hk
    exact runSteps_matches_zero env w sp elapsed rand n initialState
      (fun k _ h2 => hk k (by simpa [initialState] using h2))
  · exact fun rb s => loopStep_matches_true env w sp elapsed rb s
  · exact fun rb s => loopStep_invalid env w sp elapsed rb s

/-- C7 witness: three invalid-scalar iterations leave `attempts = 3`,
`matches = 0`; a matching iteration bumps the match counter; an invalid-scalar
iteration only bumps the attempt counter. -/
theorem counters_exact_witness :
    (runSteps env0 false [] (fun _ => 0) (fun _ => []) 3 initialState).attempt = 3 ∧
    (runSteps env0 false [] (fun _ => 0) (fun _ => []) 3 initialState).matchesCount = 0 ∧
    (loopStep env1 false [] (fun _ => 0) [] initialState).matchesCount =
      initialState.matchesCount + 1 ∧
    loopStep env0 false [] (fun _ => 0) [] initialState =
      { initialState with attempt := initialState.attempt + 1 } :=
  ⟨(counters_exact env0 false [] (fun _ => 0) (fun _ => [])).1 3,
   (counters_exact env0 false [] (fun _ => 0) (fun _ => [])).2.1 3 (fun _ _ => rfl),
   (counters_exact env1 false [] (fun _ => 0) (fun _ => [])).2.2.1 [] initialState rfl,
   (counters_exact env0 false [] (fun _ => 0) (fun _ => [])).2.2.2 [] initialState rfl⟩

/-- C9: the public search command's `max_attempts` argument has no effect:
two invocations differing only in it produce the same result and the same
final state (attempt and match counters, emitted progress snapshots and
persisted wallets), given the same random bytes, cancellation observations
and clock. -/
theorem max_attempts_unused (env : Env) (pattern : List Char) (m1 m2 : Nat)
    (elapsed : Nat → Nat) (cancel : Nat → Bool) (rand : Nat → List Nat) (fuel : Nat) :
    generate_fancy_wallet env pattern m1 elapsed cancel rand fuel =
    generate_fancy_wallet env pattern m2 elapsed cancel rand fuel := rfl

/-- C10: the empty pattern compiles to exact mode with empty needle, its
checksum is the empty string, every candidate address matches it, and each
valid-scalar iteration increments the match counter, persists a wallet and
retains it as the last match. -/
theorem empty_pattern_matches_all (K : List Nat → List Nat) (env : Env)
    (elapsed : Nat → Nat) :
    compilePattern [] = (false, []) ∧
    to_checksum_address K [] = [] ∧
    (∀ addr : List Char, addressMatches K false [] addr = true) ∧
    (∀ (rb sk : List Nat) (s : LoopState), env.secFromSlice rb = some sk →
      (loopStep env false [] elapsed rb s).matchesCount = s.matchesCount + 1 ∧
      ∃ wlt, (loopStep env false [] elapsed rb s).lastMatch = some wlt ∧
        (loopStep env false [] elapsed rb s).saved = s.saved ++ [wlt]) := by
  refine ⟨by decide, rfl, fun addr => addressMatches_empty K addr, ?_⟩
  intro rb sk s h
  have hm : addressMatches env.keccak false []
      (to_checksum_address env.keccak (codeAddressLower env sk)) = true :=
    addressMatches_empty env.keccak _
  obtain ⟨-, h2, h3, h4⟩ := loopStep_valid_match env false [] elapsed rb s sk h hm
  exact ⟨h2, _, h3, h4⟩

/-- C10 witness: a concrete valid-scalar iteration under the empty pattern
matches and is persisted. -/
theorem empty_pattern_matches_all_witness :
    compilePattern [] = (false, []) ∧
    to_checksum_address keccak0 [] = [] ∧
    (∀ addr : List Char, addressMatches keccak0 false [] addr = true) ∧
    ((loopStep env1 false [] (fun _ => 0) [] initialState).matchesCount =
        initialState.matchesCount + 1 ∧
      ∃ wlt, (loopStep env1 false [] (fun _ => 0) [] initialState).lastMatch = some wlt ∧
        (loopStep env1 false [] (fun _ => 0) [] initialState).saved =
          initialState.saved ++ [wlt]) :=
  ⟨(empty_pattern_matches_all keccak0 env1 (fun _ => 0)).1,
   (empty_pattern_matches_all keccak0 env1 (fun _ => 0)).2.1,
   (empty_pattern_matches_all keccak0 env1 (fun _ => 0)).2.2.1,
   (empty_pattern_matches_all keccak0 env1 (fun _ => 0)).2.2.2 [] [] initialState rfl⟩

/-- C2: for every accepted secret scalar, the candidate address is the
uncompressed public key minus its format byte (64 bytes X‖Y), Keccak-256
hashed, last 20 bytes kept, hex-encoded lowercase and EIP-55 checksummed; the
address stored in a matched wallet is that checksummed string prefixed with
`0x` (and the stored private key is the hex-encoded secret bytes). -/
theorem address_derivation_spec (env : Env)
    (h32 : ∀ bs, (env.keccak bs).length = 32)
    (h65 : ∀ sk, (env.serializeUncompressed sk).length = 65) :
    ∀ (rb sk : List Nat), env.secFromSlice rb = some sk →
      ((env.serializeUncompressed sk).drop 1).length = 64 ∧
      codeAddressLower env sk = specAddressLower env sk ∧
      (∀ (w : Bool) (sp : List Char) (elapsed : Nat → Nat) (s : LoopState),
        addressMatches env.keccak w sp
          (to_checksum_address env.keccak (codeAddressLower env sk)) = true →
        ∃ wlt, (loopStep env w sp elapsed rb s).lastMatch = some wlt ∧
          wlt.address = '0' :: 'x' ::
            to_checksum_address env.keccak (specAddressLower env sk) ∧
          wlt.privateKey = hexEncode sk) := by
  intro rb sk h
  have hspec : codeAddressLower env sk = specAddressLower env sk := by
    show hexEncode ((env.keccak ((env.serializeUncompressed sk).drop 1)).drop 12) =
      hexEncode ((env.keccak ((env.serializeUncompressed sk).drop 1)).drop
        ((env.keccak ((env.serializeUncompressed sk).drop 1)).length - 20))
    rw [h32]
  refine ⟨by rw [List.length_drop, h65], hspec, ?_⟩
  intro w sp elapsed s hm
  obtain ⟨-, -, h3, -⟩ := loopStep_valid_match env w sp elapsed rb s sk h hm
  exact ⟨_, h3, by rw [matchWallet, hspec], rfl⟩

/-- C2 witness: a concrete environment with 32-byte hashes and 65-byte
serialized keys, evaluated at a matching iteration. -/
theorem address_derivation_spec_witness :
    ((env1.serializeUncompressed []).drop 1).length = 64 ∧
    codeAddressLower env1 [] = specAddressLower env1 [] ∧
    (∃ wlt, (loopStep env1 false [] (fun _ => 0) [] initialState).lastMatch = some wlt ∧
      wlt.address = '0' :: 'x' :: to_checksum_address env1.keccak (specAddressLower env1 []) ∧
      wlt.privateKey = hexEncode []) := by
  obtain ⟨h1, h2, h3⟩ := address_derivation_spec env1 (fun _ => rfl) (fun _ => rfl) [] [] rfl
  exact ⟨h1, h2, h3 false [] (fun _ => 0) initialState (addressMatches_empty _ _)⟩

/-- C3: for a 40-character lowercase hex string, the checksummed output
character at position `i` is the uppercase form of the input character exactly
when the `i`-th nibble of the Keccak-256 hash of the string's ASCII bytes
(high nibble of hash byte `i / 2` for even `i`, low nibble for odd `i`) is
`≥ 8`, and the unchanged input character otherwise. -/
theorem checksum_char_rule (K : List Nat → List Nat) (a : List Char)
    (hlen : a.length = 40) (hhex : ∀ c ∈ a, c ∈ lowerHexDigits)
    (i : Nat) (hi : i < 40) :
    (to_checksum_address K a).get? i =
      some (if 8 ≤ (if i % 2 = 0
                    then (K (a.map Char.toNat)).getD (i / 2) 0 / 16 % 16
                    else (K (a.map Char.toNat)).getD (i / 2) 0 % 16)
            then (a.getD i ' ').toUpper
            else a.getD i ' ') := by
  have hi' : i < a.length := by omega
  rw [to_checksum_address, checksumGo_get?, get?_some_of_lt a i ' ' hi']
  simp [checksumChar]

/-- C3 witness: the all-zero 20-byte address and a 32-byte zero hash at
position 0 (nibble 0 < 8: character unchanged). -/
theorem checksum_char_rule_witness :
    (to_checksum_address keccak0 (hexEncode (List.replicate 20 0))).get? 0 =
      some (if 8 ≤ (if 0 % 2 = 0
                    then (keccak0 ((hexEncode (List.replicate 20 0)).map Char.toNat)).getD
                          (0 / 2) 0 / 16 % 16
                    else (keccak0 ((hexEncode (List.replicate 20 0)).map Char.toNat)).getD
                          (0 / 2) 0 % 16)
            then ((hexEncode (List.replicate 20 0)).getD 0 ' ').toUpper
            else (hexEncode (List.replicate 20 0)).getD 0 ' ') :=
  checksum_char_rule keccak0 (hexEncode (List.replicate 20 0)) (by decide)
    (by decide) 0 (by decide)

/-- C8: the checksum encoder is idempotent under re-encoding of its own
output's lowercased form: `checksum(lower(checksum(lower(addr)))) =
checksum(lower(addr))` for every valid 40-hex-char lowercase input. -/
theorem checksum_idempotent (K : List Nat → List Nat) (addr : List Char)
    (hlen : addr.length = 40) (hhex : ∀ c ∈ addr, c ∈ lowerHexDigits) :
    to_checksum_address K
        ((to_checksum_address K (addr.map Char.toLower)).map Char.toLower) =
      to_checksum_address K (addr.map Char.toLower) := by
  rw [map_toLower_of_hex addr hhex, to_checksum_address_toLower K addr hhex]

/-- C8 witness: idempotence evaluated at the all-zero address. -/
theorem checksum_idempotent_witness :
    to_checksum_address keccak0
        ((to_checksum_address keccak0
          ((hexEncode (List.replicate 20 0)).map Char.toLower)).map Char.toLower) =
      to_checksum_address keccak0 ((hexEncode (List.replicate 20 0)).map Char.toLower) :=
  checksum_idempotent keccak0 (hexEncode (List.replicate 20 0)) (by decide) (by decide)

/-- C5: for every exact-mode pattern, and for every wildcard pattern whose
lowercased body is none of `aaaa`/`aabb`/`abab`, the candidate checksummed
address matches iff it starts with and ends with the EIP-55 checksum encoding
of the lowercased body/pattern (the fragment itself is checksummed as if it
were a lowercase address before the case-sensitive comparison). -/
theorem needle_checksum_match (K : List Nat → List Nat) (pattern addr : List Char)
    (h : (compilePattern pattern).1 = false ∨
         ((compilePattern pattern).2 ≠ aaaaPat ∧ (compilePattern pattern).2 ≠ aabbPat ∧
          (compilePattern pattern).2 ≠ ababPat)) :
    addressMatches K (compilePattern pattern).1 (compilePattern pattern).2 addr =
      ((to_checksum_address K (compilePattern pattern).2).isPrefixOf addr &&
       (to_checksum_address K (compilePattern pattern).2).isSuffixOf addr) := by
  cases hw : (compilePattern pattern).1 with
  | false => rfl
  | true =>
    rcases h with h | ⟨h1, h2, h3⟩
    · rw [hw] at h; cases h
    · simp [addressMatches, h1, h2, h3]

/-- C5 witness: the wildcard pattern `*abc*` with body `abc` outside the three
special shapes, evaluated at the empty address. -/
theorem needle_checksum_match_witness :
    addressMatches keccak0 (compilePattern "*abc*".data).1 (compilePattern "*abc*".data).2 [] =
      ((to_checksum_address keccak0 (compilePattern "*abc*".data).2).isPrefixOf [] &&
       (to_checksum_address keccak0 (compilePattern "*abc*".data).2).isSuffixOf []) :=
  needle_checksum_match keccak0 "*abc*".data [] (Or.inr (by decide))

/-- C6: a checksummed address matches the `*aabb*` policy iff its length is
`≥ 8`, its first 4 characters are two equal pairs with the pairs different,
and independently its last 4 characters have that same shape with their own
characters (so an `aabb`-shaped head with an `abab`-shaped tail never
matches). -/
theorem aabb_policy_iff (K : List Nat → List Nat) (addr : List Char) :
    addressMatches K true aabbPat addr = true ↔
      (8 ≤ addr.length ∧
       (addr.getD 0 ' ' = addr.getD 1 ' ' ∧ addr.getD 2 ' ' = addr.getD 3 ' ' ∧
        addr.getD 0 ' ' ≠ addr.getD 2 ' ') ∧
       (addr.getD (addr.length - 4) ' ' = addr.getD (addr.length - 4 + 1) ' ' ∧
        addr.getD (addr.length - 4 + 2) ' ' = addr.getD (addr.length - 4 + 3) ' ' ∧
        addr.getD (addr.length - 4) ' ' ≠ addr.getD (addr.length - 4 + 2) ' ')) := by
  have t1 : addressMatches K true aabbPat addr =
      (if 8 ≤ addr.length then
        aabbShape (addr.take 4) && aabbShape (addr.drop (addr.length - 4))
      else false) := rfl
  rw [t1]
  by_cases h8 : 8 ≤ addr.length
  · rw [if_pos h8]
    have e : ∀ j, j < 4 → (addr.take 4).get? j = some (addr.getD j ' ') := by
      intro j hj
      rw [get?_take_of_lt addr 4 j hj, get?_some_of_lt addr j ' ' (by omega)]
    have f : ∀ j, j < 4 →
        (addr.drop (addr.length - 4)).get? j = some (addr.getD (addr.length - 4 + j) ' ') := by
      intro j hj
      rw [get?_drop' addr (addr.length - 4) j,
        get?_some_of_lt addr (addr.length - 4 + j) ' ' (by omega)]
    simp only [aabbShape, e 0 (by omega), e 1 (by omega), e 2 (by omega), e 3 (by omega),
      f 0 (by omega), f 1 (by omega), f 2 (by omega), f 3 (by omega), Nat.add_zero,
      Bool.and_eq_true, beq_iff_eq, bne_iff_ne, ne_eq, Option.some.injEq]
    tauto
  · rw [if_neg h8]
    simp [h8]

theorem to_checksum_address_checked_eq (K : List Nat → List Nat)
    (h32 : ∀ bs, (K bs).length = 32) (l : List Char) (hl : l.length ≤ 64) :
    to_checksum_address_checked K l = some (to_checksum_address K l) :=
  checksumGoChecked_eq (K (l.map Char.toNat)) (h32 _) l 0 (by omega)

theorem sliceTake_of_le (l : List Char) (n : Nat) (h : n ≤ l.length) :
    sliceTake l n = some (l.take n) := by
  rw [sliceTake, if_pos h]

theorem sliceDrop_of_le (l : List Char) (n : Nat) (h : n ≤ l.length) :
    sliceDrop l n = some (l.drop n) := by
  rw [sliceDrop, if_pos h]

theorem addressMatchesChecked_fallback (K : List Nat → List Nat) (sp addr : List Char)
    (c1 : ¬sp = aaaaPat) (c2 : ¬sp = aabbPat) (c3 : ¬sp = ababPat) :
    addressMatchesChecked K true sp addr =
      match to_checksum_address_checked K sp with
      | some pc => some (pc.isPrefixOf addr && pc.isSuffixOf addr)
      | none => none := by
  show (if sp = aaaaPat then
          some (if 8 ≤ addr.length then
                  allSameAsFirst (addr.take 4) && allSameAsFirst (addr.reverse.take 4)
                else false)
        else if sp = aabbPat then
          if 8 ≤ addr.length then
            match sliceTake addr 4, sliceDrop addr (addr.length - 4) with
            | some pre, some suf => some (aabbShape pre && aabbShape suf)
            | _, _ => none
          else some false
        else if sp = ababPat then
          if 8 ≤ addr.length then
            match sliceTake addr 4, sliceDrop addr (addr.length - 4) with
            | some pre, some suf => some (ababShape pre && ababShape suf)
            | _, _ => none
          else some false
        else
          match to_checksum_address_checked K sp with
          | some pc => some (pc.isPrefixOf addr && pc.isSuffixOf addr)
          | none => none) = _
  rw [if_neg c1, if_neg c2, if_neg c3]

theorem addressMatches_fallback (K : List Nat → List Nat) (sp addr : List Char)
    (c1 : ¬sp = aaaaPat) (c2 : ¬sp = aabbPat) (c3 : ¬sp = ababPat) :
    addressMatches K true sp addr =
      ((to_checksum_address K sp).isPrefixOf addr &&
       (to_checksum_address K sp).isSuffixOf addr) := by
  show (if sp = aaaaPat then
          if 8 ≤ addr.length then
            allSameAsFirst (addr.take 4) && allSameAsFirst (addr.reverse.take 4)
          else false
        else if sp = aabbPat then
          if 8 ≤ addr.length then
            aabbShape (addr.take 4) && aabbShape (addr.drop (addr.length - 4))
          else false
        else if sp = ababPat then
          if 8 ≤ addr.length then
            ababShape (addr.take 4) && ababShape (addr.drop (addr.length - 4))
          else false
        else
          (to_checksum_address K sp).isPrefixOf addr &&
          (to_checksum_address K sp).isSuffixOf addr) = _
  rw [if_neg c1, if_neg c2, if_neg c3]

/-- C4 (amended): pattern compilation succeeds on every string, and the match
evaluation it entails — including checksumming the compiled search fragment as
a candidate address — completes without error or panic whenever the fragment
has at most 64 characters, so that the hash nibble lookup `hash[i / 2]` stays
inside the 32-byte Keccak output (the three special wildcard bodies never
checksum the fragment and always complete). -/
theorem compile_match_total (K : List Nat → List Nat)
    (h32 : ∀ bs, (K bs).length = 32) (pattern addr : List Char)
    (hlen : (compilePattern pattern).2.length ≤ 64) :
    addressMatchesChecked K (compilePattern pattern).1 (compilePattern pattern).2 addr =
      some (addressMatches K (compilePattern pattern).1 (compilePattern pattern).2 addr) := by
  generalize hsp : (compilePattern pattern).2 = sp at hlen ⊢
  cases hw : (compilePattern pattern).1 with
  | false =>
    show (match to_checksum_address_checked K sp with
          | some pc => some (pc.isPrefixOf addr && pc.isSuffixOf addr)
          | none => none) = _
    rw [to_checksum_address_checked_eq K h32 sp hlen]
    rfl
  | true =>
    by_cases c1 : sp = aaaaPat
    · subst c1; rfl
    · by_cases c2 : sp = aabbPat
      · subst c2
        show (if 8 ≤ addr.length then
                match sliceTake addr 4, sliceDrop addr (addr.length - 4) with
                | some pre, some suf => some (aabbShape pre && aabbShape suf)
                | _, _ => none
              else some false) =
          some (if 8 ≤ addr.length then
                  aabbShape (addr.take 4) && aabbShape (addr.drop (addr.length - 4))
                else false)
        by_cases h8 : 8 ≤ addr.length
        · rw [if_pos h8, if_pos h8, sliceTake_of_le addr 4 (by omega),
            sliceDrop_of_le addr (addr.length - 4) (by omega)]
        · rw [if_neg h8, if_neg h8]
      · by_cases c3 : sp = ababPat
        · subst c3
          show (if 8 ≤ addr.length then
                  match sliceTake addr 4, sliceDrop addr (addr.length - 4) with
                  | some pre, some suf => some (ababShape pre && ababShape suf)
                  | _, _ => none
                else some false) =
            some (if 8 ≤ addr.length then
                    ababShape (addr.take 4) && ababShape (addr.drop (addr.length - 4))
                  else false)
          by_cases h8 : 8 ≤ addr.length
          · rw [if_pos h8, if_pos h8, sliceTake_of_le addr 4 (by omega),
              sliceDrop_of_le addr (addr.length - 4) (by omega)]
          · rw [if_neg h8, if_neg h8]
        · rw [addressMatchesChecked_fallback K sp addr c1 c2 c3,
            addressMatches_fallback K sp addr c1 c2 c3,
            to_checksum_address_checked_eq K h32 sp hlen]

/-- C4 witness: the wildcard pattern `*abc*` (fragment of 3 ≤ 64 characters)
evaluates without a panic. -/
theorem compile_match_total_witness :
    addressMatchesChecked keccak0 (compilePattern "*abc*".data).1
        (compilePattern "*abc*".data).2 [] =
      some (addressMatches keccak0 (compilePattern "*abc*".data).1
        (compilePattern "*abc*".data).2 []) :=
  compile_match_total keccak0 (fun _ => rfl) "*abc*".data [] (by decide)

/-- C4 counterexample: with a (32-byte-output) hash, the 65-character exact
pattern `aaaa...a` makes the match evaluation read hash byte 32 of a 32-byte
hash — an out-of-bounds panic in the source, `none` here — so not every
pattern's match evaluation completes without error. -/
theorem compile_match_total_cex :
    (∀ bs, (keccak0 bs).length = 32) ∧
    addressMatchesChecked keccak0 (compilePattern (List.replicate 65 'a')).1
      (compilePattern (List.replicate 65 'a')).2 [] = none :=
  ⟨fun _ => rfl, by decide⟩
